import Mathlib

/-!
Verification development for the bubble-selection arithmetic game.

The repository contains two variants of the same game script:
an integer-only variant (script.js) and an extended variant
(src/unnamed/part_000) with floats and powers.  Numbers are modelled as
rationals; calls to Math.random are modelled by an explicit tape of
rational draws (a function from a position counter to a rational), with
the position threaded through every generator exactly as the calls occur
in the source.  Non-finite results (Infinity, NaN) are modelled by
Option: none stands for a non-finite value, which the generators skip
via the Number.isFinite check.
-/

namespace Bubble

/-- Arithmetic operators appearing in the two variants' operator sets. -/
inductive Op where
  | add
  | sub
  | mul
  | div
  | pow
deriving DecidableEq, Repr

/-- An expression tile: the source stores a display string and the
evaluated value.  The display string is the rendering of the operands
and operator; the model keeps the components the string is built from
(a, op, b) together with the evaluated value. -/
structure Item where
  a : ℚ
  op : Op
  b : ℚ
  value : ℚ
deriving DecidableEq, Repr

/-- Rounding to 1 decimal place, the model of toFixed(1): JS picks the
closest multiple of 1/10, ties toward the larger value, which is round
half up as Mathlib's round. -/
def round1 (q : ℚ) : ℚ := (round (q * 10) : ℚ) / 10

/-- Rounding to 2 decimal places, the model of toFixed(2). -/
def round2 (q : ℚ) : ℚ := (round (q * 100) : ℚ) / 100

/-- Rounding to 3 decimal places, the model of
Math.round(value * 1000) / 1000 used as the deduplication key. -/
def round3 (q : ℚ) : ℚ := (round (q * 1000) : ℚ) / 1000

/-- randomInt(min, max) = Math.floor(Math.random() * (max - min + 1)) + min,
consuming one tape entry; returns the value and the next tape position. -/
def randomIntAt (lo hi : ℚ) (tape : ℕ → ℚ) (k : ℕ) : ℚ × ℕ :=
  ((⌊tape k * (hi - lo + 1)⌋ : ℚ) + lo, k + 1)

/-- randomOperand(min, max, asFloat) of the extended variant: when
asFloat, one draw decides (p < 0.5) whether to produce a 1-decimal
float from a second draw, otherwise randomInt; when not asFloat the
coin draw is short-circuited away and randomInt consumes the entry. -/
def randomOperandAt (lo hi : ℚ) (asFloat : Bool) (tape : ℕ → ℚ) (k : ℕ) : ℚ × ℕ :=
  if asFloat then
    if tape k < 1/2 then (round1 (tape (k+1) * (hi - lo) + lo), k + 2)
    else randomIntAt lo hi tape (k+1)
  else randomIntAt lo hi tape k

/-- evaluate(a, b, op) of the integer-only variant: plain rational
arithmetic, none for division by zero (Infinity) and for an operator
without a case (NaN: the script has no power case). -/
def evaluate (a b : ℚ) : Op → Option ℚ
  | .add => some (a + b)
  | .sub => some (a - b)
  | .mul => some (a * b)
  | .div => if b = 0 then none else some (a / b)
  | .pow => none

/-- evaluateAdvanced(a, b, op) of the extended variant: the four basic
operators round the result to 2 decimals (toFixed(2)); the power case
is Math.pow without rounding, modelled on integer exponents (the only
exponents the synthesizer draws; a fractional exponent would leave ℚ
and is modelled as non-finite), with 0 to a negative power = Infinity. -/
def evaluateAdvanced (a b : ℚ) : Op → Option ℚ
  | .add => some (round2 (a + b))
  | .sub => some (round2 (a - b))
  | .mul => some (round2 (a * b))
  | .div => if b = 0 then none else some (round2 (a / b))
  | .pow =>
      if b.den = 1 then
        (if a = 0 ∧ b.num < 0 then none else some (a ^ b.num))
      else none

/-! Difficulty policy of the integer-only variant (script.js). -/

/-- Operand range record; the extended variant adds the float flag. -/
structure OperandRange where
  lo : ℚ
  hi : ℚ
  float : Bool
deriving DecidableEq, Repr

/-- getBubbleCountForRound of both variants: always exactly 3. -/
def getBubbleCountForRound (_round : ℕ) : ℕ := 3

/-- getOperatorSetForRound of the integer-only variant: ramp from plus
to all four basic operators. -/
def getOperatorSetForRoundInt (r : ℕ) : List Op :=
  if r ≤ 5 then [.add]
  else if r ≤ 10 then [.add, .sub]
  else if r ≤ 18 then [.add, .sub, .mul]
  else [.add, .sub, .mul, .div]

/-- getOperandRangeForRound of the integer-only variant (no float flag
in the source; recorded as false). -/
def getOperandRangeForRoundInt (r : ℕ) : OperandRange :=
  if r ≤ 5 then ⟨1, 12, false⟩
  else if r ≤ 10 then ⟨3, 20, false⟩
  else if r ≤ 18 then ⟨6, 40, false⟩
  else ⟨10, 80, false⟩

/-- getOperatorSetForRound of the extended variant: always all five. -/
def getOperatorSetForRoundAdv (_r : ℕ) : List Op :=
  [.add, .sub, .mul, .div, .pow]

/-- getOperandRangeForRound of the extended variant. -/
def getOperandRangeForRoundAdv (r : ℕ) : OperandRange :=
  if r ≤ 7 then ⟨1, 12, false⟩
  else if r ≤ 15 then ⟨2, 30, true⟩
  else ⟨3, 60, true⟩

/-! Expression synthesizer, extended variant (part_000). -/

/-- One attempt's operand drawing in the extended synthesizer,
dispatching on the operator exactly as the source's if chain:
division-with-floats builds the numerator as a 1-decimal rounding of
denominator times a random factor; power draws integer base and
exponent from tightened bounds; otherwise two direct operand draws.
Returns (a, b, next tape position). -/
def drawAdv (r : ℕ) (rng : OperandRange) (op : Op) (tape : ℕ → ℚ) (k : ℕ) :
    ℚ × ℚ × ℕ :=
  if op = Op.div ∧ rng.float then
    let p1 := randomOperandAt (max (1/2) rng.lo) (max 1 (min 15 rng.hi)) true tape k
    let b := if p1.1 = 0 then 1 else p1.1
    let p2 := randomIntAt 2 (max 3 (⌊rng.hi / b⌋ : ℚ)) tape p1.2
    (round1 (b * p2.1), b, p2.2)
  else if op = Op.pow then
    let p1 := randomOperandAt rng.lo (min rng.hi (if r < 10 then 5 else 9)) false tape k
    let p2 := randomOperandAt 2 (if r < 10 then 3 else if r < 20 then 4 else 6) false tape p1.2
    (p1.1, p2.1, p2.2)
  else
    let p1 := randomOperandAt rng.lo rng.hi (decide (op ≠ Op.pow) && rng.float) tape k
    let p2 := randomOperandAt rng.lo rng.hi (decide (op ≠ Op.pow) && rng.float) tape p1.2
    (p1.1, p2.1, p2.2)

/-- The while loop of the extended generateExpressionsForRound: fuel is
the remaining global guard budget (5000 at the top), results holds the
3-decimal-rounded keys already taken, items the accumulated tiles; each
iteration picks the operator by rotation on the current item count,
draws operands, and keeps the candidate only if finite, within
magnitude 999999 and with a fresh rounded key. -/
def genLoopAdv (r : ℕ) (count : ℕ) (ops : List Op) (rng : OperandRange)
    (tape : ℕ → ℚ) :
    ℕ → ℕ → List ℚ → List Item → List Item
  | 0, _, _, items => items
  | fuel + 1, k, results, items =>
    if items.length < count then
      let op := ops.getD (items.length % ops.length) Op.add
      let d := drawAdv r rng op tape k
      match evaluateAdvanced d.1 d.2.1 op with
      | none => genLoopAdv r count ops rng tape fuel d.2.2 results items
      | some value =>
          if |value| > 999999 then
            genLoopAdv r count ops rng tape fuel d.2.2 results items
          else
            let valKey := round3 value
            if valKey ∈ results then
              genLoopAdv r count ops rng tape fuel d.2.2 results items
            else
              genLoopAdv r count ops rng tape fuel d.2.2 (valKey :: results)
                (items ++ [⟨d.1, op, d.2.1, value⟩])
    else items

/-- generateExpressionsForRound of the extended variant: global guard
5000, starting from empty results and items. -/
def generateExpressionsForRoundAdv (r count : ℕ) (tape : ℕ → ℚ) : List Item :=
  genLoopAdv r count (getOperatorSetForRoundAdv r) (getOperandRangeForRoundAdv r)
    tape 5000 0 [] []

/-! Expression synthesizer, integer-only variant (script.js). -/

/-- One attempt's operand drawing in the integer-only synthesizer: two
unconditional draws, then operator-specific overrides — multiplication
redraws both operands capped at 12; division draws the denominator
(replaced by 1 if zero), caps the quotient at min(30, hi/b) with the
JS-falsy fallback to 1, and builds the numerator as the product.
Returns (a, b, next tape position). -/
def genAttemptInt (rng : OperandRange) (op : Op) (tape : ℕ → ℚ) (k : ℕ) :
    ℚ × ℚ × ℕ :=
  let p1 := randomIntAt rng.lo rng.hi tape k
  let p2 := randomIntAt rng.lo rng.hi tape p1.2
  if op = Op.mul then
    let q1 := randomIntAt rng.lo (min rng.hi 12) tape p2.2
    let q2 := randomIntAt rng.lo (min rng.hi 12) tape q1.2
    (q1.1, q2.1, q2.2)
  else if op = Op.div then
    let q1 := randomIntAt (max 1 rng.lo) (min rng.hi 12) tape p2.2
    let b := if q1.1 = 0 then 1 else q1.1
    let qmax := min 30 ⌊rng.hi / b⌋
    let qmax1 : ℚ := if qmax = 0 then 1 else (qmax : ℚ)
    let q2 := randomIntAt 1 qmax1 tape q1.2
    (b * q2.1, b, q2.2)
  else
    (p1.1, p2.1, p2.2)

/-- The inner while of the integer-only synthesizer for one operator
slot: up to 500 attempts (the fuel); each attempt draws operands,
evaluates, and accepts the first finite value with magnitude at most
999 that is not already in results.  Returns the accepted item (if
any), the next tape position and the updated global guard count. -/
def genSlotInt (rng : OperandRange) (op : Op) (tape : ℕ → ℚ) (results : List ℚ) :
    ℕ → ℕ → ℕ → Option Item × ℕ × ℕ
  | 0, k, guard => (none, k, guard)
  | fuel + 1, k, guard =>
    let d := genAttemptInt rng op tape k
    match evaluate d.1 d.2.1 op with
    | none => genSlotInt rng op tape results fuel d.2.2 (guard + 1)
    | some value =>
        if |value| > 999 then genSlotInt rng op tape results fuel d.2.2 (guard + 1)
        else if value ∈ results then
          genSlotInt rng op tape results fuel d.2.2 (guard + 1)
        else (some ⟨d.1, op, d.2.1, value⟩, d.2.2, guard + 1)

/-- The outer for loop of the integer-only generateExpressionsForRound
over the rotated operator sequence, stopping early if the global guard
reaches 5000; a slot that exhausts its 500 attempts contributes
nothing and the loop moves on. -/
def genOuterInt (rng : OperandRange) (tape : ℕ → ℚ) :
    List Op → ℕ → ℕ → List ℚ → List Item → List Item
  | [], _, _, _, items => items
  | op :: rest, k, guard, results, items =>
    if guard < 5000 then
      match genSlotInt rng op tape results 500 k guard with
      | (none, k1, g1) => genOuterInt rng tape rest k1 g1 results items
      | (some it, k1, g1) =>
          genOuterInt rng tape rest k1 g1 (it.value :: results) (items ++ [it])
    else items

/-- generateExpressionsForRound of the integer-only variant: the
operator sequence rotates through the round's operator set
(ops[i % ops.length] for i below count). -/
def generateExpressionsForRoundInt (r count : ℕ) (tape : ℕ → ℚ) : List Item :=
  let ops := getOperatorSetForRoundInt r
  let opSeq := (List.range count).map (fun i => ops.getD (i % ops.length) Op.add)
  genOuterInt (getOperandRangeForRoundInt r) tape opSeq 0 0 [] []

/-! Round state and session state machine. -/

/-- TOTAL_ROUNDS. -/
def TOTAL_ROUNDS : ℕ := 25

/-- TIME_PER_ROUND in seconds. -/
def TIME_PER_ROUND : ℤ := 15

/-- PENALTY_SECONDS deducted on a wrong selection. -/
def PENALTY_SECONDS : ℤ := 2

/-- POINTS_PER_SEQUENCE awarded per completed round. -/
def POINTS_PER_SEQUENCE : ℕ := 10

/-- The default eps of isClose. -/
def EPSILON : ℚ := 1/100

/-- isClose(val1, val2, eps): absolute difference strictly below eps. -/
def isClose (v1 v2 eps : ℚ) : Bool := decide (|v1 - v2| < eps)

/-- The mutable session and round state of the script: round counter,
score, remaining seconds, the ascending target order, the cursor into
it, and the input gate. -/
structure GameState where
  currentRound : ℕ
  score : ℕ
  remaining : ℤ
  targetOrder : List ℚ
  nextIndex : ℕ
  acceptingInput : Bool
deriving DecidableEq, Repr

/-- targetOrder construction in nextRound: map the expressions to their
values and sort ascending (JS sort with comparator a - b; modelled by
insertion sort, an ascending stable sort). -/
def buildTargetOrder (items : List Item) : List ℚ :=
  List.insertionSort (· ≤ ·) (items.map Item.value)

/-- applyPenalty: clamp remaining - PENALTY_SECONDS at 0; if that hits
0, input is disabled (the timer stop and the scheduled round advance
are external effects outside the state model). -/
def applyPenalty (s : GameState) : GameState :=
  let rem := max 0 (s.remaining - PENALTY_SECONDS)
  if rem ≤ 0 then { s with remaining := rem, acceptingInput := false }
  else { s with remaining := rem }

/-- The body of the 1-second interval in startTimer: decrement
remaining, clamp at 0, and when it reaches 0 disable input (the
scheduled nextRound call is an external effect). -/
def timerTick (s : GameState) : GameState :=
  let rem0 := s.remaining - 1
  let rem := if rem0 < 0 then 0 else rem0
  if rem ≤ 0 then { s with remaining := rem, acceptingInput := false }
  else { s with remaining := rem }

/-- onBubbleSelect of the extended variant: ignore when not accepting
input; otherwise compare the selected value against
targetOrder[nextIndex] with isClose (an out-of-range index reads
undefined, whose comparison is false, landing in the wrong branch);
on a match advance the cursor and, on completion, disable input and
add the points; on a mismatch apply the penalty. -/
def onBubbleSelect (s : GameState) (value : ℚ) : GameState :=
  if s.acceptingInput = false then s
  else
    match s.targetOrder.get? s.nextIndex with
    | some expected =>
        if isClose value expected EPSILON then
          let s1 := { s with nextIndex := s.nextIndex + 1 }
          if s1.targetOrder.length ≤ s1.nextIndex then
            { s1 with acceptingInput := false,
                      score := s1.score + POINTS_PER_SEQUENCE }
          else s1
        else applyPenalty s
    | none => applyPenalty s

/-- onBubbleSelect of the integer-only variant: identical except the
match test is strict equality (value === expected) on the parsed
integer value. -/
def onBubbleSelectInt (s : GameState) (value : ℚ) : GameState :=
  if s.acceptingInput = false then s
  else
    match s.targetOrder.get? s.nextIndex with
    | some expected =>
        if value = expected then
          let s1 := { s with nextIndex := s.nextIndex + 1 }
          if s1.targetOrder.length ≤ s1.nextIndex then
            { s1 with acceptingInput := false,
                      score := s1.score + POINTS_PER_SEQUENCE }
          else s1
        else applyPenalty s
    | none => applyPenalty s

/-- The Math.random contract: every tape entry lies in [0, 1). -/
def ValidTape (tape : ℕ → ℚ) : Prop := ∀ n, 0 ≤ tape n ∧ tape n < 1

/-! Helper notions and lemmas. -/

/-- A rational that is an integer. -/
def IsInt (q : ℚ) : Prop := ∃ z : ℤ, q = (z : ℚ)

/-- Provenance of an item pushed by the extended loop: its operator was
picked by rotation at some item count below the requested count, its
operands come from drawAdv at some tape position, its value is the
finite evaluation of its operands and is within magnitude 999999. -/
def PushedAdv (r count : ℕ) (ops : List Op) (rng : OperandRange)
    (tape : ℕ → ℚ) (it : Item) : Prop :=
  ∃ m k, m < count ∧ it.op = ops.getD (m % ops.length) Op.add ∧
    it.a = (drawAdv r rng it.op tape k).1 ∧
    it.b = (drawAdv r rng it.op tape k).2.1 ∧
    evaluateAdvanced it.a it.b it.op = some it.value ∧
    |it.value| ≤ 999999

/-- Provenance of an item produced by one slot of the integer-only
synthesizer: its operator is the slot's, its operands come from
genAttemptInt at some tape position, its value is the finite evaluation
of the operands and is within magnitude 999. -/
def PushedInt (rng : OperandRange) (tape : ℕ → ℚ) (op : Op) (it : Item) : Prop :=
  it.op = op ∧
  (∃ k, it.a = (genAttemptInt rng op tape k).1 ∧
        it.b = (genAttemptInt rng op tape k).2.1) ∧
  evaluate it.a it.b op = some it.value ∧
  |it.value| ≤ 999

lemma IsInt.add {a b : ℚ} (ha : IsInt a) (hb : IsInt b) : IsInt (a + b) := by
  obtain ⟨x, rfl⟩ := ha
  obtain ⟨y, rfl⟩ := hb
  exact ⟨x + y, by push_cast; ring⟩

lemma IsInt.sub {a b : ℚ} (ha : IsInt a) (hb : IsInt b) : IsInt (a - b) := by
  obtain ⟨x, rfl⟩ := ha
  obtain ⟨y, rfl⟩ := hb
  exact ⟨x - y, by push_cast; ring⟩

lemma IsInt.mul {a b : ℚ} (ha : IsInt a) (hb : IsInt b) : IsInt (a * b) := by
  obtain ⟨x, rfl⟩ := ha
  obtain ⟨y, rfl⟩ := hb
  exact ⟨x * y, by push_cast; ring⟩

lemma round2_intCast {q : ℚ} (h : IsInt q) : round2 q = q := by
  obtain ⟨z, rfl⟩ := h
  unfold round2
  rw [show ((z : ℚ) * 100) = ((z * 100 : ℤ) : ℚ) by push_cast; ring, round_intCast]
  push_cast
  field_simp

lemma round3_intCast {q : ℚ} (h : IsInt q) : round3 q = q := by
  obtain ⟨z, rfl⟩ := h
  unfold round3
  rw [show ((z : ℚ) * 1000) = ((z * 1000 : ℤ) : ℚ) by push_cast; ring, round_intCast]
  push_cast
  field_simp

lemma round2_round2 (q : ℚ) : round2 (round2 q) = round2 q := by
  unfold round2
  rw [div_mul_cancel₀ ((round (q * 100) : ℤ) : ℚ) (by norm_num : (100 : ℚ) ≠ 0),
    round_intCast]

lemma isInt_randomIntAt (lo hi : ℚ) (tape : ℕ → ℚ) (k : ℕ) (h : IsInt lo) :
    IsInt (randomIntAt lo hi tape k).1 := by
  obtain ⟨z, rfl⟩ := h
  refine ⟨⌊tape k * (hi - (z : ℚ) + 1)⌋ + z, ?_⟩
  simp only [randomIntAt]
  push_cast
  ring

lemma randomIntAt_ge (lo hi : ℚ) (tape : ℕ → ℚ) (k : ℕ)
    (h0 : 0 ≤ tape k) (hr : 0 ≤ hi - lo + 1) :
    lo ≤ (randomIntAt lo hi tape k).1 := by
  have hf : (0 : ℤ) ≤ ⌊tape k * (hi - lo + 1)⌋ :=
    Int.floor_nonneg.mpr (mul_nonneg h0 hr)
  have : (0 : ℚ) ≤ (⌊tape k * (hi - lo + 1)⌋ : ℚ) := by exact_mod_cast hf
  simp only [randomIntAt]
  linarith

lemma genLoopAdv_length (r count : ℕ) (ops : List Op) (rng : OperandRange)
    (tape : ℕ → ℚ) :
    ∀ fuel k results items, items.length ≤ count →
      (genLoopAdv r count ops rng tape fuel k results items).length ≤ count := by
  intro fuel
  induction fuel with
  | zero =>
    intro k results items h
    simpa [genLoopAdv] using h
  | succ n ih =>
    intro k results items h
    simp only [genLoopAdv]
    split
    · rename_i hlt
      split
      · exact ih _ _ _ h
      · split
        · exact ih _ _ _ h
        · split
          · exact ih _ _ _ h
          · apply ih
            simp only [List.length_append, List.length_singleton]
            omega
    · exact h

lemma genLoopAdv_mem (r count : ℕ) (ops : List Op) (rng : OperandRange)
    (tape : ℕ → ℚ) :
    ∀ fuel k results items it,
      it ∈ genLoopAdv r count ops rng tape fuel k results items →
      it ∈ items ∨ PushedAdv r count ops rng tape it := by
  intro fuel
  induction fuel with
  | zero =>
    intro k results items it h
    simp only [genLoopAdv] at h
    exact Or.inl h
  | succ n ih =>
    intro k results items it h
    simp only [genLoopAdv] at h
    split at h
    · rename_i hlt
      split at h
      · exact ih _ _ _ _ h
      · rename_i value hval
        split at h
        · exact ih _ _ _ _ h
        · rename_i hbound
          split at h
          · exact ih _ _ _ _ h
          · rcases ih _ _ _ _ h with hin | hp
            · rcases List.mem_append.mp hin with hin' | hnew
              · exact Or.inl hin'
              · right
                have hit : it = ⟨(drawAdv r rng
                    (ops.getD (items.length % ops.length) Op.add) tape k).1,
                    ops.getD (items.length % ops.length) Op.add,
                    (drawAdv r rng
                      (ops.getD (items.length % ops.length) Op.add) tape k).2.1,
                    value⟩ := by simpa using hnew
                refine ⟨items.length, k, hlt, ?_, ?_, ?_, ?_, ?_⟩
                · rw [hit]
                · rw [hit]
                · rw [hit]
                · rw [hit]
                  simpa using hval
                · rw [hit]
                  simp only
                  linarith [not_lt.mp hbound]
            · exact Or.inr hp
    · exact Or.inl h

lemma genLoopAdv_keysNodup (r count : ℕ) (ops : List Op) (rng : OperandRange)
    (tape : ℕ → ℚ) :
    ∀ fuel k results items,
      (∀ it ∈ items, round3 it.value ∈ results) →
      (items.map fun it => round3 it.value).Nodup →
      ((genLoopAdv r count ops rng tape fuel k results items).map
        fun it => round3 it.value).Nodup := by
  intro fuel
  induction fuel with
  | zero =>
    intro k results items _ hnd
    simpa [genLoopAdv] using hnd
  | succ n ih =>
    intro k results items hmem hnd
    simp only [genLoopAdv]
    split
    · split
      · exact ih _ _ _ hmem hnd
      · rename_i value hval
        split
        · exact ih _ _ _ hmem hnd
        · split
          · exact ih _ _ _ hmem hnd
          · rename_i hfresh
            apply ih
            · intro it hit
              rcases List.mem_append.mp hit with hin | hnew
              · exact List.mem_cons_of_mem _ (hmem it hin)
              · have : it.value = value := by
                  simp only [List.mem_singleton] at hnew
                  rw [hnew]
                rw [this]
                exact List.mem_cons_self _ _
            · rw [List.map_append]
              refine List.Nodup.append hnd (by simp) ?_
              intro x hx hx'
              simp only [List.map_cons, List.map_nil, List.mem_singleton] at hx'
              rcases List.mem_map.mp hx with ⟨it, hit, hxe⟩
              exact hfresh (by rw [← hx', ← hxe]; exact hmem it hit)
    · exact hnd

lemma genSlotInt_some (rng : OperandRange) (op : Op) (tape : ℕ → ℚ)
    (results : List ℚ) :
    ∀ fuel k guard it k1 g1,
      genSlotInt rng op tape results fuel k guard = (some it, k1, g1) →
      PushedInt rng tape op it ∧ it.value ∉ results := by
  intro fuel
  induction fuel with
  | zero =>
    intro k guard it k1 g1 h
    simp [genSlotInt] at h
  | succ n ih =>
    intro k guard it k1 g1 h
    simp only [genSlotInt] at h
    split at h
    · exact ih _ _ _ _ _ h
    · rename_i value hval
      split at h
      · exact ih _ _ _ _ _ h
      · rename_i hbound
        split at h
        · exact ih _ _ _ _ _ h
        · rename_i hfresh
          have hit : it = ⟨(genAttemptInt rng op tape k).1, op,
              (genAttemptInt rng op tape k).2.1, value⟩ := by
            have := congrArg Prod.fst h
            simpa using this.symm
          refine ⟨⟨?_, ⟨k, ?_, ?_⟩, ?_, ?_⟩, ?_⟩
          · rw [hit]
          · rw [hit]
          · rw [hit]
          · rw [hit]
            simpa using hval
          · rw [hit]
            simp only
            linarith [not_lt.mp hbound]
          · rw [hit]
            simpa using hfresh

lemma genOuterInt_length (rng : OperandRange) (tape : ℕ → ℚ) :
    ∀ opSeq k guard results items,
      (genOuterInt rng tape opSeq k guard results items).length ≤
        items.length + opSeq.length := by
  intro opSeq
  induction opSeq with
  | nil =>
    intro k guard results items
    simp [genOuterInt]
  | cons op rest ih =>
    intro k guard results items
    simp only [genOuterInt]
    split
    · split
      · refine le_trans (ih _ _ _ _) ?_
        simp only [List.length_cons]
        omega
      · refine le_trans (ih _ _ _ _) ?_
        simp only [List.length_append, List.length_singleton, List.length_cons,
          List.length_nil]
        omega
    · simp

lemma genOuterInt_mem (rng : OperandRange) (tape : ℕ → ℚ) :
    ∀ opSeq k guard results items it,
      it ∈ genOuterInt rng tape opSeq k guard results items →
      it ∈ items ∨ ∃ op ∈ opSeq, PushedInt rng tape op it := by
  intro opSeq
  induction opSeq with
  | nil =>
    intro k guard results items it h
    simp only [genOuterInt] at h
    exact Or.inl h
  | cons op rest ih =>
    intro k guard results items it h
    simp only [genOuterInt] at h
    split at h
    · split at h
      · rcases ih _ _ _ _ _ h with hin | ⟨op', hop', hp⟩
        · exact Or.inl hin
        · exact Or.inr ⟨op', List.mem_cons_of_mem _ hop', hp⟩
      · rename_i it' k1 g1 heq
        rcases ih _ _ _ _ _ h with hin | ⟨op', hop', hp⟩
        · rcases List.mem_append.mp hin with hin' | hnew
          · exact Or.inl hin'
          · right
            refine ⟨op, List.mem_cons_self _ _, ?_⟩
            have : it = it' := by simpa using hnew
            rw [this]
            exact (genSlotInt_some rng op tape results 500 _ _ _ _ _ heq).1
        · exact Or.inr ⟨op', List.mem_cons_of_mem _ hop', hp⟩
    · exact Or.inl h

lemma genOuterInt_valuesNodup (rng : OperandRange) (tape : ℕ → ℚ) :
    ∀ opSeq k guard results items,
      (∀ it ∈ items, it.value ∈ results) →
      (items.map Item.value).Nodup →
      ((genOuterInt rng tape opSeq k guard results items).map Item.value).Nodup := by
  intro opSeq
  induction opSeq with
  | nil =>
    intro k guard results items _ hnd
    simpa [genOuterInt] using hnd
  | cons op rest ih =>
    intro k guard results items hmem hnd
    simp only [genOuterInt]
    split
    · split
      · exact ih _ _ _ _ hmem hnd
      · rename_i it' k1 g1 heq
        have hfresh := (genSlotInt_some rng op tape results 500 _ _ _ _ _ heq).2
        apply ih
        · intro it hit
          rcases List.mem_append.mp hit with hin | hnew
          · exact List.mem_cons_of_mem _ (hmem it hin)
          · have : it = it' := by simpa using hnew
            rw [this]
            exact List.mem_cons_self _ _
        · rw [List.map_append]
          refine List.Nodup.append hnd (by simp) ?_
          intro x hx hx'
          simp only [List.map_cons, List.map_nil, List.mem_singleton] at hx'
          rcases List.mem_map.mp hx with ⟨it, hit, hxe⟩
          exact hfresh (by rw [← hx', ← hxe]; exact hmem it hit)
    · exact hnd

lemma isInt_one : IsInt (1 : ℚ) := ⟨1, by norm_num⟩

lemma isInt_genAttemptInt_value (rng : OperandRange) (tape : ℕ → ℚ) (k : ℕ)
    (hlo : IsInt rng.lo) (op : Op) (v : ℚ)
    (hv : evaluate (genAttemptInt rng op tape k).1
      (genAttemptInt rng op tape k).2.1 op = some v) :
    IsInt v := by
  cases op with
  | add =>
    simp only [genAttemptInt, evaluate, Option.some.injEq] at hv
    simp only [show (Op.add = Op.mul) = False by simp,
      show (Op.add = Op.div) = False by simp, if_false] at hv
    rw [← hv]
    exact (isInt_randomIntAt _ _ _ _ hlo).add (isInt_randomIntAt _ _ _ _ hlo)
  | sub =>
    simp only [genAttemptInt, evaluate, Option.some.injEq] at hv
    simp only [show (Op.sub = Op.mul) = False by simp,
      show (Op.sub = Op.div) = False by simp, if_false] at hv
    rw [← hv]
    exact (isInt_randomIntAt _ _ _ _ hlo).sub (isInt_randomIntAt _ _ _ _ hlo)
  | mul =>
    simp only [genAttemptInt, evaluate, Option.some.injEq] at hv
    simp only [show (Op.mul = Op.mul) = True by simp, if_true] at hv
    rw [← hv]
    exact (isInt_randomIntAt _ _ _ _ hlo).mul (isInt_randomIntAt _ _ _ _ hlo)
  | div =>
    simp only [genAttemptInt, evaluate] at hv
    simp only [show (Op.div = Op.mul) = False by simp,
      show (Op.div = Op.div) = True by simp, if_false, if_true] at hv
    split at hv
    · simp only [one_ne_zero, if_false, one_mul, div_one, Option.some.injEq] at hv
      rw [← hv]
      exact isInt_randomIntAt _ _ _ _ isInt_one
    · rename_i hq
      simp only [Option.some.injEq] at hv
      rw [← hv, mul_div_cancel_left₀ _ hq]
      exact isInt_randomIntAt _ _ _ _ isInt_one
  | pow =>
    simp only [evaluate] at hv
    simp at hv

lemma isInt_rangeIntLo (r : ℕ) : IsInt (getOperandRangeForRoundInt r).lo := by
  unfold getOperandRangeForRoundInt
  split
  · exact ⟨1, by norm_num⟩
  · split
    · exact ⟨3, by norm_num⟩
    · split
      · exact ⟨6, by norm_num⟩
      · exact ⟨10, by norm_num⟩

lemma isInt_rangeAdvLo (r : ℕ) : IsInt (getOperandRangeForRoundAdv r).lo := by
  unfold getOperandRangeForRoundAdv
  split
  · exact ⟨1, by norm_num⟩
  · split
    · exact ⟨2, by norm_num⟩
    · exact ⟨3, by norm_num⟩

lemma genInt_value_isInt (r count : ℕ) (tape : ℕ → ℚ) :
    ∀ it ∈ generateExpressionsForRoundInt r count tape, IsInt it.value := by
  intro it hit
  simp only [generateExpressionsForRoundInt] at hit
  rcases genOuterInt_mem _ _ _ _ _ _ _ _ hit with hin | ⟨op, _, hp⟩
  · simp at hin
  · obtain ⟨_, ⟨k0, ha, hb⟩, hev, _⟩ := hp
    rw [ha, hb] at hev
    exact isInt_genAttemptInt_value _ _ _ (isInt_rangeIntLo r) op _ hev

lemma evaluateAdvanced_round2 {a b v : ℚ} {op : Op} (hop : op ≠ Op.pow)
    (hv : evaluateAdvanced a b op = some v) : round2 v = v := by
  cases op with
  | add =>
    simp only [evaluateAdvanced, Option.some.injEq] at hv
    rw [← hv, round2_round2]
  | sub =>
    simp only [evaluateAdvanced, Option.some.injEq] at hv
    rw [← hv, round2_round2]
  | mul =>
    simp only [evaluateAdvanced, Option.some.injEq] at hv
    rw [← hv, round2_round2]
  | div =>
    simp only [evaluateAdvanced] at hv
    split at hv
    · simp at hv
    · simp only [Option.some.injEq] at hv
      rw [← hv, round2_round2]
  | pow => exact absurd rfl hop

lemma drawAdv_pow_facts (r : ℕ) (rng : OperandRange) (tape : ℕ → ℚ) (k : ℕ)
    (hlo : IsInt rng.lo) (ht : ValidTape tape) :
    IsInt (drawAdv r rng Op.pow tape k).1 ∧
    ∃ z : ℤ, (drawAdv r rng Op.pow tape k).2.1 = (z : ℚ) ∧ 2 ≤ z := by
  have hred : drawAdv r rng Op.pow tape k =
      (let p1 := randomIntAt rng.lo (min rng.hi (if r < 10 then 5 else 9)) tape k
       let p2 := randomIntAt 2 (if r < 10 then 3 else if r < 20 then 4 else 6) tape p1.2
       (p1.1, p2.1, p2.2)) := by
    simp [drawAdv, randomOperandAt]
  rw [hred]
  refine ⟨isInt_randomIntAt _ _ _ _ hlo, ?_⟩
  refine ⟨⌊tape ((randomIntAt rng.lo (min rng.hi (if r < 10 then 5 else 9)) tape k).2) *
    ((if r < 10 then (3 : ℚ) else if r < 20 then 4 else 6) - 2 + 1)⌋ + 2, ?_, ?_⟩
  · simp only [randomIntAt]
    push_cast
    ring
  · have h0 : (0 : ℚ) ≤ tape ((randomIntAt rng.lo
        (min rng.hi (if r < 10 then 5 else 9)) tape k).2) := (ht _).1
    have hE : (0 : ℚ) ≤ (if r < 10 then (3 : ℚ) else if r < 20 then 4 else 6) - 2 + 1 := by
      split
      · norm_num
      · split <;> norm_num
    have := Int.floor_nonneg.mpr (mul_nonneg h0 hE)
    omega

lemma genAdv_value_round2 (r count : ℕ) (tape : ℕ → ℚ) (ht : ValidTape tape) :
    ∀ it ∈ generateExpressionsForRoundAdv r count tape, round2 it.value = it.value := by
  intro it hit
  simp only [generateExpressionsForRoundAdv] at hit
  rcases genLoopAdv_mem _ _ _ _ _ _ _ _ _ _ hit with hin | hp
  · simp at hin
  · obtain ⟨m, k0, _, _, ha, hb, hev, _⟩ := hp
    by_cases hpow : it.op = Op.pow
    · rw [hpow] at ha hb hev
      obtain ⟨hA, z, hz, hz2⟩ :=
        drawAdv_pow_facts r (getOperandRangeForRoundAdv r) tape k0 (isInt_rangeAdvLo r) ht
      rw [← ha] at hA
      rw [← hb] at hz
      rw [hz] at hev
      have hznn : ¬ z < 0 := by omega
      simp only [evaluateAdvanced, Rat.den_intCast, Rat.num_intCast, if_pos rfl,
        hznn, and_false, if_false, if_true, eq_self_iff_true, Option.some.injEq] at hev
      obtain ⟨w, hw⟩ := hA
      refine round2_intCast ⟨w ^ z.toNat, ?_⟩
      rw [← hev, hw]
      rw [show z = (z.toNat : ℤ) from (Int.toNat_of_nonneg (by omega)).symm, zpow_natCast]
      push_cast
      rw [Int.toNat_natCast]
    · exact evaluateAdvanced_round2 hpow hev

lemma genAdv_keysNodup (r count : ℕ) (tape : ℕ → ℚ) :
    ((generateExpressionsForRoundAdv r count tape).map
      fun it => round3 it.value).Nodup := by
  simp only [generateExpressionsForRoundAdv]
  exact genLoopAdv_keysNodup _ _ _ _ _ _ _ _ _ (by simp) (by simp)

lemma genAdv_valuesNodup (r count : ℕ) (tape : ℕ → ℚ) :
    ((generateExpressionsForRoundAdv r count tape).map Item.value).Nodup := by
  have h := genAdv_keysNodup r count tape
  rw [List.Nodup, List.pairwise_map] at h ⊢
  exact h.imp fun hne hval => hne (by rw [hval])

lemma genInt_valuesNodup (r count : ℕ) (tape : ℕ → ℚ) :
    ((generateExpressionsForRoundInt r count tape).map Item.value).Nodup := by
  simp only [generateExpressionsForRoundInt]
  exact genOuterInt_valuesNodup _ _ _ _ _ _ _ (by simp) (by simp)

lemma genInt_keysPairwise (r count : ℕ) (tape : ℕ → ℚ) :
    (generateExpressionsForRoundInt r count tape).Pairwise
      (fun x y => round3 x.value ≠ round3 y.value) := by
  have h := genInt_valuesNodup r count tape
  rw [List.Nodup, List.pairwise_map] at h
  refine List.Pairwise.imp_of_mem ?_ h
  intro a b ha hb hne hkey
  have hia := round3_intCast (genInt_value_isInt r count tape a ha)
  have hib := round3_intCast (genInt_value_isInt r count tape b hb)
  exact hne (by rw [← hia, ← hib, hkey])

lemma buildTargetOrder_sorted (items : List Item)
    (h : (items.map Item.value).Nodup) :
    (buildTargetOrder items).Sorted (· < ·) := by
  have hs : (buildTargetOrder items).Sorted (· ≤ ·) :=
    List.sorted_insertionSort _ _
  have hnd : (buildTargetOrder items).Nodup :=
    ((List.perm_insertionSort _ _).nodup_iff).mpr h
  exact hs.lt_of_le hnd

lemma genAdv_zeroTape :
    generateExpressionsForRoundAdv 1 3 (fun _ => 0) =
      [⟨1, Op.add, 1, 2⟩, ⟨1, Op.sub, 1, 0⟩, ⟨1, Op.mul, 1, 1⟩] := by
  have hd0 : drawAdv 1 (getOperandRangeForRoundAdv 1) Op.add (fun _ => 0) 0 =
      (1, 1, 2) := by
    norm_num [drawAdv, randomOperandAt, randomIntAt, getOperandRangeForRoundAdv]
    decide
  have hd1 : drawAdv 1 (getOperandRangeForRoundAdv 1) Op.sub (fun _ => 0) 2 =
      (1, 1, 4) := by
    norm_num [drawAdv, randomOperandAt, randomIntAt, getOperandRangeForRoundAdv]
    decide
  have hd2 : drawAdv 1 (getOperandRangeForRoundAdv 1) Op.mul (fun _ => 0) 4 =
      (1, 1, 6) := by
    norm_num [drawAdv, randomOperandAt, randomIntAt, getOperandRangeForRoundAdv]
    decide
  have he0 : evaluateAdvanced 1 1 Op.add = some 2 := by
    norm_num [evaluateAdvanced, round2]
  have he1 : evaluateAdvanced 1 1 Op.sub = some 0 := by
    norm_num [evaluateAdvanced, round2]
  have he2 : evaluateAdvanced 1 1 Op.mul = some 1 := by
    norm_num [evaluateAdvanced, round2]
  rw [generateExpressionsForRoundAdv, show (5000 : ℕ) = 4999 + 1 from rfl,
    genLoopAdv]
  simp only [show (getOperatorSetForRoundAdv 1).getD ((([] : List Item)).length %
    (getOperatorSetForRoundAdv 1).length) Op.add = Op.add from rfl, hd0, he0]
  rw [if_pos (show (([] : List Item)).length < 3 by norm_num)]
  rw [if_neg (show ¬ |(2 : ℚ)| > 999999 by norm_num)]
  rw [if_neg (show round3 2 ∉ ([] : List ℚ) by simp)]
  rw [show round3 (2 : ℚ) = 2 by norm_num [round3], List.nil_append]
  rw [show (4999 : ℕ) = 4998 + 1 from rfl, genLoopAdv]
  simp only [show (getOperatorSetForRoundAdv 1).getD
    (([⟨1, Op.add, 1, 2⟩] : List Item).length %
      (getOperatorSetForRoundAdv 1).length) Op.add = Op.sub from rfl, hd1, he1]
  rw [if_pos (show ([⟨1, Op.add, 1, 2⟩] : List Item).length < 3 by norm_num)]
  rw [if_neg (show ¬ |(0 : ℚ)| > 999999 by norm_num)]
  rw [if_neg (show round3 0 ∉ ([2] : List ℚ) by norm_num [round3])]
  rw [show round3 (0 : ℚ) = 0 by norm_num [round3]]
  rw [show ([⟨1, Op.add, 1, 2⟩] : List Item) ++ [⟨1, Op.sub, 1, 0⟩] =
    [⟨1, Op.add, 1, 2⟩, ⟨1, Op.sub, 1, 0⟩] from rfl]
  rw [show (4998 : ℕ) = 4997 + 1 from rfl, genLoopAdv]
  simp only [show (getOperatorSetForRoundAdv 1).getD
    (([⟨1, Op.add, 1, 2⟩, ⟨1, Op.sub, 1, 0⟩] : List Item).length %
      (getOperatorSetForRoundAdv 1).length) Op.add = Op.mul from rfl, hd2, he2]
  rw [if_pos (show ([⟨1, Op.add, 1, 2⟩, ⟨1, Op.sub, 1, 0⟩] : List Item).length < 3
    by norm_num)]
  rw [if_neg (show ¬ |(1 : ℚ)| > 999999 by norm_num)]
  rw [if_neg (show round3 1 ∉ ([0, 2] : List ℚ) by norm_num [round3])]
  rw [show round3 (1 : ℚ) = 1 by norm_num [round3]]
  rw [show ([⟨1, Op.add, 1, 2⟩, ⟨1, Op.sub, 1, 0⟩] : List Item) ++
    [⟨1, Op.mul, 1, 1⟩] =
    [⟨1, Op.add, 1, 2⟩, ⟨1, Op.sub, 1, 0⟩, ⟨1, Op.mul, 1, 1⟩] from rfl]
  rw [show (4997 : ℕ) = 4996 + 1 from rfl, genLoopAdv]
  rw [if_neg (show ¬ ([⟨1, Op.add, 1, 2⟩, ⟨1, Op.sub, 1, 0⟩,
    ⟨1, Op.mul, 1, 1⟩] : List Item).length < 3 by norm_num)]

lemma genInt_zeroTape :
    generateExpressionsForRoundInt 1 1 (fun _ => 0) = [⟨1, Op.add, 1, 2⟩] := by
  have ha : genAttemptInt (getOperandRangeForRoundInt 1) Op.add (fun _ => 0) 0 =
      (1, 1, 2) := by
    norm_num [genAttemptInt, randomIntAt, getOperandRangeForRoundInt]
    decide
  have he : evaluate 1 1 Op.add = some 2 := by
    norm_num [evaluate]
  have hslot : genSlotInt (getOperandRangeForRoundInt 1) Op.add (fun _ => 0) []
      500 0 0 = (some ⟨1, Op.add, 1, 2⟩, 2, 1) := by
    rw [show (500 : ℕ) = 499 + 1 from rfl, genSlotInt]
    norm_num [ha, he]
  rw [generateExpressionsForRoundInt]
  norm_num [getOperatorSetForRoundInt, List.range_succ]
  rw [genOuterInt]
  norm_num [hslot]
  rw [genOuterInt]

lemma applyPenalty_remaining (s : GameState) :
    (applyPenalty s).remaining = max 0 (s.remaining - PENALTY_SECONDS) := by
  simp only [applyPenalty]
  split <;> rfl

lemma applyPenalty_frame (s : GameState) :
    (applyPenalty s).score = s.score ∧ (applyPenalty s).nextIndex = s.nextIndex ∧
    (applyPenalty s).targetOrder = s.targetOrder ∧
    (applyPenalty s).currentRound = s.currentRound := by
  simp only [applyPenalty]
  split <;> exact ⟨rfl, rfl, rfl, rfl⟩

lemma isInt_abs_lt_eps {v e : ℚ} (hv : IsInt v) (he : IsInt e) :
    |v - e| < EPSILON ↔ v = e := by
  obtain ⟨z, rfl⟩ := hv
  obtain ⟨w, rfl⟩ := he
  constructor
  · intro h
    by_contra hne
    have hzw : z - w ≠ 0 := fun hh => hne (by
      have : z = w := by omega
      rw [this])
    have h1 : (1 : ℤ) ≤ |z - w| := Int.one_le_abs hzw
    have h2 : (1 : ℚ) ≤ |(z : ℚ) - w| := by
      rw [show ((z : ℚ) - w) = ((z - w : ℤ) : ℚ) by push_cast; ring,
        ← Int.cast_abs]
      exact_mod_cast h1
    rw [EPSILON] at h
    linarith
  · intro h
    rw [h]
    norm_num [EPSILON]

/-! The claims. -/

/-- C1: while acceptingInput is true, the selection validator of the
extended variant reports correct exactly when the selected value is
within EPSILON = 0.01 of targetOrder[nextIndex] (advancing the cursor
by one); otherwise it leaves the cursor unchanged and signals the
penalty; the integer-only variant tests strict equality, which agrees
with the EPSILON test on the integer values it handles. -/
theorem claim_C1 (s : GameState) (v e : ℚ)
    (hacc : s.acceptingInput = true)
    (he : s.targetOrder.get? s.nextIndex = some e) :
    ((onBubbleSelect s v).nextIndex = s.nextIndex + 1 ↔ |v - e| < EPSILON) ∧
    (¬ |v - e| < EPSILON →
      (onBubbleSelect s v).nextIndex = s.nextIndex ∧
      onBubbleSelect s v = applyPenalty s) ∧
    (IsInt v → IsInt e →
      ((onBubbleSelectInt s v).nextIndex = s.nextIndex + 1 ↔
        |v - e| < EPSILON)) := by
  have hint : IsInt v → IsInt e →
      ((onBubbleSelectInt s v).nextIndex = s.nextIndex + 1 ↔
        |v - e| < EPSILON) := by
    intro hv hie
    rw [isInt_abs_lt_eps hv hie]
    by_cases hveq : v = e
    · rw [iff_true_intro hveq, iff_true]
      simp only [onBubbleSelectInt, hacc, he]
      norm_num
      rw [if_pos hveq]
      split <;> rfl
    · rw [iff_false_intro hveq, iff_false]
      simp only [onBubbleSelectInt, hacc, he]
      norm_num
      rw [if_neg hveq, (applyPenalty_frame s).2.1]
      omega
  by_cases hc : |v - e| < EPSILON
  · refine ⟨?_, fun h => absurd hc h, hint⟩
    rw [iff_true_intro hc, iff_true]
    simp only [onBubbleSelect, hacc, he]
    norm_num [isClose, hc]
    split <;> rfl
  · have hsel : onBubbleSelect s v = applyPenalty s := by
      simp only [onBubbleSelect, hacc, he]
      norm_num [isClose, hc]
    refine ⟨?_, fun _ => ⟨?_, hsel⟩, hint⟩
    · rw [hsel, iff_false_intro hc, iff_false, (applyPenalty_frame s).2.1]
      omega
    · rw [hsel, (applyPenalty_frame s).2.1]

theorem claim_C1_witness :
    ((onBubbleSelect ⟨1, 0, 15, [2, 5], 0, true⟩ 2).nextIndex = 0 + 1 ↔
      |(2 : ℚ) - 2| < EPSILON) ∧
    (¬ |(2 : ℚ) - 2| < EPSILON →
      (onBubbleSelect ⟨1, 0, 15, [2, 5], 0, true⟩ 2).nextIndex = 0 ∧
      onBubbleSelect ⟨1, 0, 15, [2, 5], 0, true⟩ 2 =
        applyPenalty ⟨1, 0, 15, [2, 5], 0, true⟩) ∧
    (IsInt 2 → IsInt 2 →
      ((onBubbleSelectInt ⟨1, 0, 15, [2, 5], 0, true⟩ 2).nextIndex = 0 + 1 ↔
        |(2 : ℚ) - 2| < EPSILON)) :=
  claim_C1 ⟨1, 0, 15, [2, 5], 0, true⟩ 2 2 rfl rfl

/-- C4: the score rises by exactly POINTS_PER_SEQUENCE = 10 when a
correct selection completes the target sequence, stays unchanged on
any other selection outcome and on every timer tick and penalty, and
never decreases. -/
theorem claim_C4 (s : GameState) (v e : ℚ) :
    (s.acceptingInput = true → s.targetOrder.get? s.nextIndex = some e →
      isClose v e EPSILON = true → s.targetOrder.length ≤ s.nextIndex + 1 →
      (onBubbleSelect s v).score = s.score + POINTS_PER_SEQUENCE) ∧
    (s.acceptingInput = true → s.targetOrder.get? s.nextIndex = some e →
      isClose v e EPSILON = true → ¬ s.targetOrder.length ≤ s.nextIndex + 1 →
      (onBubbleSelect s v).score = s.score) ∧
    (s.acceptingInput = true → s.targetOrder.get? s.nextIndex = some e →
      isClose v e EPSILON = false → (onBubbleSelect s v).score = s.score) ∧
    ((timerTick s).score = s.score) ∧
    ((applyPenalty s).score = s.score) ∧
    (s.score ≤ (onBubbleSelect s v).score) := by
  refine ⟨?_, ?_, ?_, ?_, (applyPenalty_frame s).1, ?_⟩
  · intro hacc he hc hdone
    simp only [onBubbleSelect, hacc, he]
    norm_num [hc]
    rw [if_pos hdone]
  · intro hacc he hc hdone
    simp only [onBubbleSelect, hacc, he]
    norm_num [hc]
    rw [if_neg hdone]
  · intro hacc he hc
    simp only [onBubbleSelect, hacc, he]
    norm_num [hc]
    exact (applyPenalty_frame s).1
  · simp only [timerTick]
    split <;> (split <;> rfl)
  · simp only [onBubbleSelect]
    split
    · exact le_refl _
    · split
      · split
        · split
          · simp
          · simp
        · rw [(applyPenalty_frame s).1]
      · rw [(applyPenalty_frame s).1]

theorem claim_C4_witness :
    ((⟨1, 0, 15, [2], 0, true⟩ : GameState).acceptingInput = true →
      (⟨1, 0, 15, [2], 0, true⟩ : GameState).targetOrder.get? 0 = some 2 →
      isClose 2 2 EPSILON = true → ([(2 : ℚ)]).length ≤ 0 + 1 →
      (onBubbleSelect ⟨1, 0, 15, [2], 0, true⟩ 2).score = 0 + POINTS_PER_SEQUENCE) ∧
    ((⟨1, 0, 15, [2], 0, true⟩ : GameState).acceptingInput = true →
      (⟨1, 0, 15, [2], 0, true⟩ : GameState).targetOrder.get? 0 = some 2 →
      isClose 2 2 EPSILON = true → ¬ ([(2 : ℚ)]).length ≤ 0 + 1 →
      (onBubbleSelect ⟨1, 0, 15, [2], 0, true⟩ 2).score = 0) ∧
    ((⟨1, 0, 15, [2], 0, true⟩ : GameState).acceptingInput = true →
      (⟨1, 0, 15, [2], 0, true⟩ : GameState).targetOrder.get? 0 = some 2 →
      isClose 2 2 EPSILON = false →
      (onBubbleSelect ⟨1, 0, 15, [2], 0, true⟩ 2).score = 0) ∧
    ((timerTick ⟨1, 0, 15, [2], 0, true⟩).score = 0) ∧
    ((applyPenalty ⟨1, 0, 15, [2], 0, true⟩).score = 0) ∧
    (0 ≤ (onBubbleSelect ⟨1, 0, 15, [2], 0, true⟩ 2).score) :=
  claim_C4 ⟨1, 0, 15, [2], 0, true⟩ 2 2

/-- C5: applying the penalty sets remaining to its old value minus
PENALTY_SECONDS = 2 floored at 0, never increases a nonnegative
remaining, always leaves remaining nonnegative, and an incorrect
selection while accepting input takes exactly this penalty path. -/
theorem claim_C5 (s : GameState) (v e : ℚ) :
    ((applyPenalty s).remaining = max 0 (s.remaining - PENALTY_SECONDS)) ∧
    (0 ≤ s.remaining → (applyPenalty s).remaining ≤ s.remaining) ∧
    (0 ≤ (applyPenalty s).remaining) ∧
    (s.acceptingInput = true → s.targetOrder.get? s.nextIndex = some e →
      isClose v e EPSILON = false →
      (onBubbleSelect s v).remaining = max 0 (s.remaining - PENALTY_SECONDS)) := by
  refine ⟨applyPenalty_remaining s, ?_, ?_, ?_⟩
  · intro h
    rw [applyPenalty_remaining s]
    have : (0 : ℤ) < PENALTY_SECONDS := by norm_num [PENALTY_SECONDS]
    omega
  · rw [applyPenalty_remaining s]
    omega
  · intro hacc he hc
    simp only [onBubbleSelect, hacc, he]
    norm_num [hc]
    exact applyPenalty_remaining s

theorem claim_C5_witness :
    ((applyPenalty ⟨1, 0, 1, [2], 0, true⟩).remaining =
      max 0 (1 - PENALTY_SECONDS)) ∧
    (0 ≤ (1 : ℤ) → (applyPenalty ⟨1, 0, 1, [2], 0, true⟩).remaining ≤ 1) ∧
    (0 ≤ (applyPenalty ⟨1, 0, 1, [2], 0, true⟩).remaining) ∧
    ((⟨1, 0, 1, [2], 0, true⟩ : GameState).acceptingInput = true →
      (⟨1, 0, 1, [2], 0, true⟩ : GameState).targetOrder.get? 0 = some 2 →
      isClose 99 2 EPSILON = false →
      (onBubbleSelect ⟨1, 0, 1, [2], 0, true⟩ 99).remaining =
        max 0 (1 - PENALTY_SECONDS)) :=
  claim_C5 ⟨1, 0, 1, [2], 0, true⟩ 99 2

/-- C9: if acceptingInput is false when a selection event is handled,
the handler of either variant returns the state unchanged. -/
theorem claim_C9 (s : GameState) (v : ℚ) (h : s.acceptingInput = false) :
    onBubbleSelect s v = s ∧ onBubbleSelectInt s v = s := by
  constructor
  · simp [onBubbleSelect, h]
  · simp [onBubbleSelectInt, h]

theorem claim_C9_witness :
    onBubbleSelect ⟨1, 0, 15, [2], 0, false⟩ 2 = ⟨1, 0, 15, [2], 0, false⟩ ∧
    onBubbleSelectInt ⟨1, 0, 15, [2], 0, false⟩ 2 = ⟨1, 0, 15, [2], 0, false⟩ :=
  claim_C9 ⟨1, 0, 15, [2], 0, false⟩ 2 rfl

/-- C2: in both variants, no two expressions returned by the
synthesizer have equal evaluated values after rounding each value to 3
decimal places, for every round index, requested count and random
tape. -/
theorem claim_C2 (r count : ℕ) (tape : ℕ → ℚ) :
    (generateExpressionsForRoundAdv r count tape).Pairwise
      (fun x y => round3 x.value ≠ round3 y.value) ∧
    (generateExpressionsForRoundInt r count tape).Pairwise
      (fun x y => round3 x.value ≠ round3 y.value) := by
  constructor
  · have h := genAdv_keysNodup r count tape
    rw [List.Nodup, List.pairwise_map] at h
    exact h
  · exact genInt_keysPairwise r count tape

/-- C3: the targetOrder sequence built from the synthesizer's output is
strictly ascending, in both variants, for every round index, count and
random tape. -/
theorem claim_C3 (r count : ℕ) (tape : ℕ → ℚ) :
    (buildTargetOrder (generateExpressionsForRoundAdv r count tape)).Sorted
      (· < ·) ∧
    (buildTargetOrder (generateExpressionsForRoundInt r count tape)).Sorted
      (· < ·) :=
  ⟨buildTargetOrder_sorted _ (genAdv_valuesNodup r count tape),
   buildTargetOrder_sorted _ (genInt_valuesNodup r count tape)⟩

/-- C6: every expression returned by the synthesizer has its evaluated
value bounded in magnitude by 999999 in the extended variant and by
999 in the integer-only variant; over-magnitude and non-finite
candidates are skipped and never stored. -/
theorem claim_C6 (r count : ℕ) (tape : ℕ → ℚ) :
    (∀ it ∈ generateExpressionsForRoundAdv r count tape, |it.value| ≤ 999999) ∧
    (∀ it ∈ generateExpressionsForRoundInt r count tape, |it.value| ≤ 999) := by
  constructor
  · intro it hit
    simp only [generateExpressionsForRoundAdv] at hit
    rcases genLoopAdv_mem _ _ _ _ _ _ _ _ _ _ hit with hin | hp
    · simp at hin
    · obtain ⟨m, k0, _, _, _, _, _, hb⟩ := hp
      exact hb
  · intro it hit
    simp only [generateExpressionsForRoundInt] at hit
    rcases genOuterInt_mem _ _ _ _ _ _ _ _ hit with hin | ⟨op, _, _, _, _, hb⟩
    · simp at hin
    · exact hb

theorem claim_C6_witness :
    |(⟨1, Op.add, 1, 2⟩ : Item).value| ≤ 999999 ∧
    |(⟨1, Op.add, 1, 2⟩ : Item).value| ≤ 999 :=
  ⟨(claim_C6 1 3 (fun _ => 0)).1 ⟨1, Op.add, 1, 2⟩
      (by rw [genAdv_zeroTape]; exact List.mem_cons_self _ _),
   (claim_C6 1 1 (fun _ => 0)).2 ⟨1, Op.add, 1, 2⟩
      (by rw [genInt_zeroTape]; exact List.mem_singleton_self _)⟩

/-- C8: both synthesizers are total with the global guard budgeted at
5000 (and 500 attempts per slot in the integer variant): the output
never exceeds the requested count, an exhausted global guard returns
the items accumulated so far, and an exhausted slot budget yields no
item. -/
theorem claim_C8 (r count : ℕ) (tape : ℕ → ℚ) :
    (generateExpressionsForRoundAdv r count tape).length ≤ count ∧
    (generateExpressionsForRoundInt r count tape).length ≤ count ∧
    (∀ ops rng k results items,
      genLoopAdv r count ops rng tape 0 k results items = items) ∧
    (∀ rng op results k guard,
      genSlotInt rng op tape results 0 k guard = (none, k, guard)) := by
  refine ⟨?_, ?_, ?_, ?_⟩
  · simp only [generateExpressionsForRoundAdv]
    exact genLoopAdv_length _ _ _ _ _ _ _ _ _ (by simp)
  · simp only [generateExpressionsForRoundInt]
    refine le_trans (genOuterInt_length _ _ _ _ _ _ _) ?_
    simp
  · intro ops rng k results items
    rfl
  · intro rng op results k guard
    rfl

/-- C10: in the extended variant the bubble count is always 3 and the
per-slot operator is ops[items.length % 5] over the five-operator
list, so every returned expression uses one of plus, minus and times;
the division and power branches are never reached. -/
theorem claim_C10 (r : ℕ) (tape : ℕ → ℚ) :
    getBubbleCountForRound r = 3 ∧
    getOperatorSetForRoundAdv r = [Op.add, Op.sub, Op.mul, Op.div, Op.pow] ∧
    ∀ it ∈ generateExpressionsForRoundAdv r (getBubbleCountForRound r) tape,
      it.op = Op.add ∨ it.op = Op.sub ∨ it.op = Op.mul := by
  refine ⟨rfl, rfl, ?_⟩
  intro it hit
  simp only [generateExpressionsForRoundAdv] at hit
  rcases genLoopAdv_mem _ _ _ _ _ _ _ _ _ _ hit with hin | hp
  · simp at hin
  · obtain ⟨m, k0, hm, hop, _⟩ := hp
    simp only [getBubbleCountForRound] at hm
    interval_cases m
    · left
      simpa [getOperatorSetForRoundAdv] using hop
    · right
      left
      simpa [getOperatorSetForRoundAdv] using hop
    · right
      right
      simpa [getOperatorSetForRoundAdv] using hop

theorem claim_C10_witness :
    (⟨1, Op.add, 1, 2⟩ : Item).op = Op.add ∨
    (⟨1, Op.add, 1, 2⟩ : Item).op = Op.sub ∨
    (⟨1, Op.add, 1, 2⟩ : Item).op = Op.mul :=
  (claim_C10 1 (fun _ => 0)).2.2 ⟨1, Op.add, 1, 2⟩
    (by
      rw [show getBubbleCountForRound 1 = 3 from rfl, genAdv_zeroTape]
      exact List.mem_cons_self _ _)

/-- C7: the extended evaluator rounds every non-power result to 2
decimal places before the magnitude and distinctness checks, and for
all operands the synthesizers actually use, every stored expression
value equals its own 2-decimal rounding, in both variants. -/
theorem claim_C7 (r count : ℕ) (tape : ℕ → ℚ) (ht : ValidTape tape) :
    (∀ (a b v : ℚ) (op : Op), op ≠ Op.pow →
      evaluateAdvanced a b op = some v → round2 v = v) ∧
    (∀ it ∈ generateExpressionsForRoundAdv r count tape,
      round2 it.value = it.value) ∧
    (∀ it ∈ generateExpressionsForRoundInt r count tape,
      round2 it.value = it.value) := by
  refine ⟨fun a b v op hop hv => evaluateAdvanced_round2 hop hv,
    genAdv_value_round2 r count tape ht, ?_⟩
  intro it hit
  exact round2_intCast (genInt_value_isInt r count tape it hit)

theorem claim_C7_witness :
    ValidTape (fun _ => 0) ∧
    round2 (round2 ((3 : ℚ) + 5)) = round2 ((3 : ℚ) + 5) :=
  ⟨fun _ => ⟨le_refl 0, by norm_num⟩,
   (claim_C7 1 1 (fun _ => 0) (fun _ => ⟨le_refl 0, by norm_num⟩)).1 3 5
     (round2 ((3 : ℚ) + 5)) Op.add (by decide) rfl⟩

end Bubble
